import Mathlib

/-!
Verification of the NuttX CAN upper-half character driver
(`drivers/can.c`) against its natural-language specification.

The driver is embedded shallowly: each C function that the claims touch
is translated into an executable Lean definition over explicit state,
and the claims are settled as theorems about those definitions.

Compile-time configuration is threaded through as parameters:
`C` for `CONFIG_CAN_FIFOSIZE`, `fd` for `CONFIG_CAN_FD`,
`errorsEnabled` for `CONFIG_CAN_ERRORS`, `nonblock` for `O_NONBLOCK`,
and `hdrlen` for `sizeof(struct can_hdr_s)` (the header struct lives in
`include/nuttx/can.h`, outside the sources at hand, so its size is kept
abstract as a parameter).
-/

namespace CanDriver

/-- Modelled from the spec: `CAN_ERROR_DLC`, the DLC of the synthesized
error frame, defined in `include/nuttx/can.h` (not among the sources).
The spec's error frame carries a full 8-byte classic-CAN data field with
byte 5 holding the driver error byte, so the DLC is 8. -/
def CAN_ERROR_DLC : Nat := 8

/-- Modelled from the spec: `CAN_ERROR_INTERNAL`, the identifier of the
synthesized error frame, defined in `include/nuttx/can.h` (not among the
sources).  Every claim uses it only symbolically, so any fixed value
serves; we fix one. -/
def CAN_ERROR_INTERNAL : Nat := 512

/-- Modelled from the spec: `CAN_ERROR5_RXOVERFLOW`, the sticky
RX-overflow error bit from `include/nuttx/can.h` (not among the
sources).  The claims use it only as a fixed non-zero bit. -/
def CAN_ERROR5_RXOVERFLOW : Nat := 1

/-- `EAGAIN` errno value; the driver returns `-EAGAIN` for the
would-block conditions. -/
def EAGAIN : Nat := 11

/-- `ENOMEM` errno value; the driver returns `-ENOMEM` for the
out-of-memory conditions. -/
def ENOMEM : Nat := 12

/-- `CAN_MSGLEN(nbytes)` from `include/nuttx/can.h`:
`sizeof(struct can_hdr_s) + nbytes`, with the header size kept abstract
as `hdrlen`. -/
def canMsgLen (hdrlen nbytes : Nat) : Nat := hdrlen + nbytes

/-- `can_dlc2bytes` (drivers/can.c lines 189-218).  `fd` models
`CONFIG_CAN_FD`.  The C `switch` sends `default` together with
`case 15` to 64, which the final match arm reproduces. -/
def can_dlc2bytes (fd : Bool) (dlc : Nat) : Nat :=
  if 8 < dlc then
    if fd then
      match dlc with
      | 9 => 12
      | 10 => 16
      | 11 => 20
      | 12 => 24
      | 13 => 32
      | 14 => 48
      | _ => 64
    else 8
  else dlc

/-- `can_bytes2dlc` (drivers/can.c lines 238-281, compiled out with
`#if 0` but present in the source).  `fd` models `CONFIG_CAN_FD`. -/
def can_bytes2dlc (fd : Bool) (nbytes : Nat) : Nat :=
  if nbytes ≤ 8 then nbytes
  else if fd then
    if nbytes ≤ 12 then 9
    else if nbytes ≤ 16 then 10
    else if nbytes ≤ 20 then 11
    else if nbytes ≤ 24 then 12
    else if nbytes ≤ 32 then 13
    else if nbytes ≤ 48 then 14
    else 15
  else 8

/-- Wrap-around increment used for every ring index in the driver:
`if (++idx >= CONFIG_CAN_FIFOSIZE) idx = 0;` and the equivalent
`nexttail` computation. -/
def incw (C x : Nat) : Nat := if C ≤ x + 1 then 0 else x + 1

/-- `struct can_hdr_s` from `include/nuttx/can.h`, as used by
drivers/can.c: identifier, DLC, and the RTR / error / extid / unused
flag bits (flag bitfields modelled as `Nat`). -/
structure CanHdr where
  ch_id : Nat
  ch_dlc : Nat
  ch_rtr : Nat
  ch_error : Nat
  ch_extid : Nat
  ch_unused : Nat
deriving DecidableEq

/-- `struct can_msg_s`: a header followed by the payload bytes.  The
payload list holds the logically valid `can_dlc2bytes (ch_dlc)` bytes of
the fixed-size `cm_data` array. -/
structure CanMsg where
  cm_hdr : CanHdr
  cm_data : List Nat
deriving DecidableEq

/-- A message with all fields zero, standing for uninitialized buffer
slots. -/
def blankMsg : CanMsg := ⟨⟨0, 0, 0, 0, 0, 0⟩, []⟩

/-- `struct can_rtrwait_s`: one slot of the pending-RTR table.  `cr_msg`
is the caller-supplied target buffer pointer (`none` models `NULL`;
`some a` models a valid pointer with abstract address `a`).  The slot's
semaphore is modelled by the post events that the operations report. -/
structure RtrSlot where
  cr_id : Nat
  cr_msg : Option Nat
deriving DecidableEq

/-- Number of RTR slots whose target pointer is non-null. -/
def countOccupied (slots : List RtrSlot) : Nat :=
  slots.countP (fun s => s.cr_msg.isSome)

/-- `struct can_rxfifo_s`: receive ring with head (consumer) and tail
(producer) indices. -/
structure RxFifo where
  rx_head : Nat
  rx_tail : Nat
  rx_buffer : List CanMsg
deriving DecidableEq

/-- The part of `struct can_dev_s` that the receive/read/RTR paths
touch: the RTR table with its occupancy counter (a `uint8_t` in C), the
RX FIFO, the sticky error byte and the reader-waiter count. -/
structure CanDev where
  cd_rtr : List RtrSlot
  cd_npendrtr : Nat
  cd_recv : RxFifo
  cd_error : Nat
  cd_nrxwaiters : Nat
deriving DecidableEq

/-- One delivery performed by the RTR scan of `can_receive`: the slot
index, the target address the slot held, and the message written
through that pointer. -/
structure RtrDelivery where
  slot : Nat
  target : Nat
  msg : CanMsg
deriving DecidableEq

/-- Result of the RTR-matching scan in `can_receive`: the updated
table, the updated `cd_npendrtr`, the final offset of the advanced
`data` pointer, the deliveries made, and the slot semaphores posted. -/
structure ScanResult where
  slots : List RtrSlot
  npend : Nat
  doff : Nat
  delivered : List RtrDelivery
  posted : List Nat
deriving DecidableEq

/-- The RTR-matching loop of `can_receive` (drivers/can.c lines
1043-1075), reproduced faithfully, including the source's reuse of the
outer loop variable `i` by the inner payload-copy loop: after a slot is
serviced the inner loop leaves `i = nbytes`, and the outer `i++` resumes
the scan at index `nbytes + 1`.  The `data` pointer advances by `nbytes`
at each serviced slot (`*dest++ = *data++`), tracked as the offset
`doff`.  `cd_npendrtr` is a `uint8_t`, so its decrement wraps mod 256.

The loop terminates because each serviced slot is cleared and the index
otherwise increases; between two services the index takes at most
`slots.length + 1` values and there are at most `slots.length` services,
so `(slots.length + 2) * (slots.length + 2)` steps of fuel always
suffice and the fuel-exhausted arm is never reached from the entry
point `rtrScan`. -/
def rtrScanGo (hdr : CanHdr) (nbytes : Nat) (data : List Nat) :
    Nat → Nat → List RtrSlot → Nat → Nat → List RtrDelivery → List Nat →
    ScanResult
  | 0, _, slots, npend, doff, dels, posts =>
      ⟨slots, npend, doff, dels, posts⟩
  | Nat.succ fuel, i, slots, npend, doff, dels, posts =>
      match slots.get? i with
      | none => ⟨slots, npend, doff, dels, posts⟩
      | some s =>
        match s.cr_msg with
        | some addr =>
          if hdr.ch_id = s.cr_id then
            rtrScanGo hdr nbytes data fuel (nbytes + 1)
              (slots.set i { s with cr_msg := none })
              ((npend + 255) % 256) (doff + nbytes)
              (dels ++ [⟨i, addr, ⟨hdr, (data.drop doff).take nbytes⟩⟩])
              (posts ++ [i])
          else
            rtrScanGo hdr nbytes data fuel (i + 1) slots npend doff dels posts
        | none =>
            rtrScanGo hdr nbytes data fuel (i + 1) slots npend doff dels posts

/-- Entry point of the RTR-matching scan: index 0, data offset 0, with
fuel covering the worst-case iteration count (see `rtrScanGo`). -/
def rtrScan (fd : Bool) (hdr : CanHdr) (data : List Nat)
    (slots : List RtrSlot) (npend : Nat) : ScanResult :=
  rtrScanGo hdr (can_dlc2bytes fd hdr.ch_dlc) data
    ((slots.length + 2) * (slots.length + 2)) 0 slots npend 0 [] []

/-- Result of `can_receive`: the return code, the new device state, the
RTR deliveries and semaphore posts, and whether `rx_sem` was posted. -/
structure RecvResult where
  ret : Int
  dev : CanDev
  rtrDelivered : List RtrDelivery
  rtrPosted : List Nat
  rxPosted : Bool
deriving DecidableEq

/-- `can_receive` (drivers/can.c lines 1012-1128).  Computes `nexttail`,
runs the RTR-matching scan when `cd_npendrtr > 0`, then appends the
frame to the RX FIFO unless it is full; when full it latches the sticky
RX-overflow bit (`errorsEnabled` models `CONFIG_CAN_ERRORS`) and
returns `-ENOMEM`.  The FIFO payload copy reads from the `data` pointer
at the offset where the scan left it. -/
def can_receive (C : Nat) (fd errorsEnabled : Bool) (hdr : CanHdr)
    (data : List Nat) (dev : CanDev) : RecvResult :=
  let nexttail := incw C dev.cd_recv.rx_tail
  let nbytes := can_dlc2bytes fd hdr.ch_dlc
  let scan :=
    if 0 < dev.cd_npendrtr then
      rtrScan fd hdr data dev.cd_rtr dev.cd_npendrtr
    else ⟨dev.cd_rtr, dev.cd_npendrtr, 0, [], []⟩
  if nexttail ≠ dev.cd_recv.rx_head then
    let msg : CanMsg := ⟨hdr, (data.drop scan.doff).take nbytes⟩
    { ret := 0,
      dev := { dev with
        cd_rtr := scan.slots, cd_npendrtr := scan.npend,
        cd_recv :=
          { rx_head := dev.cd_recv.rx_head,
            rx_tail := nexttail,
            rx_buffer :=
              dev.cd_recv.rx_buffer.set dev.cd_recv.rx_tail msg } },
      rtrDelivered := scan.delivered, rtrPosted := scan.posted,
      rxPosted := decide (0 < dev.cd_nrxwaiters) }
  else
    { ret := -(ENOMEM : Int),
      dev := { dev with
        cd_rtr := scan.slots, cd_npendrtr := scan.npend,
        cd_error :=
          if errorsEnabled then dev.cd_error ||| CAN_ERROR5_RXOVERFLOW
          else dev.cd_error },
      rtrDelivered := scan.delivered, rtrPosted := scan.posted,
      rxPosted := false }

/-- `struct canioc_rtr_s`: the argument of the `CANIOC_RTR` ioctl — an
id and the caller's target buffer pointer (`none` models `NULL`). -/
structure RtrReq where
  ci_id : Nat
  ci_msg : Option Nat
deriving DecidableEq

/-- Outcome of `can_rtrread`: either no slot was taken and `-ENOMEM` is
returned, or a slot was taken, `dev_remoterequest` was issued with the
slot's stored id, and the caller waits on that slot's semaphore. -/
inductive RtrOutcome where
  | nomem
  | requested (id : Nat) (slot : Nat)
deriving DecidableEq

/-- The slot-search loop of `can_rtrread` (drivers/can.c lines
878-889), reproduced faithfully: the availability test in the source is
`!rtr->ci_msg` — the *request's* buffer pointer — rather than the
slot's own `cr_msg`.  When the branch is taken, the slot receives
`cr_id := ci_id` and `cr_msg := ci_msg`, `cd_npendrtr` (a `uint8_t`) is
incremented, and the loop breaks with that slot selected.  The counter
`k` stands for the remaining iterations `slots.length - i` of
`for (i = 0; i < CONFIG_CAN_NPENDINGRTR; i++)`. -/
def rtrFindSlotGo (req : RtrReq) (slots : List RtrSlot) (npend : Nat) :
    Nat → Nat → List RtrSlot × Nat × Option Nat
  | _, 0 => (slots, npend, none)
  | i, Nat.succ k =>
      if req.ci_msg.isNone then
        (slots.set i { cr_id := req.ci_id, cr_msg := req.ci_msg },
         (npend + 1) % 256, some i)
      else rtrFindSlotGo req slots npend (i + 1) k

/-- `can_rtrread` (drivers/can.c lines 864-906): scan the RTR table for
a slot, and either issue the remote request and wait, or return
`-ENOMEM` when no slot was selected. -/
def can_rtrread (req : RtrReq) (dev : CanDev) : CanDev × RtrOutcome :=
  let r := rtrFindSlotGo req dev.cd_rtr dev.cd_npendrtr 0 dev.cd_rtr.length
  match r.2.2 with
  | some i =>
      ({ dev with cd_rtr := r.1, cd_npendrtr := r.2.1 },
       RtrOutcome.requested req.ci_id i)
  | none =>
      ({ dev with cd_rtr := r.1, cd_npendrtr := r.2.1 }, RtrOutcome.nomem)

/-- A device with the sticky error byte latched at 3, used to exercise
the error paths of `can_read`. -/
def latchedDev : CanDev :=
  { cd_rtr := [⟨0, none⟩, ⟨0, none⟩, ⟨0, none⟩, ⟨0, none⟩],
    cd_npendrtr := 0,
    cd_recv := ⟨0, 0, [blankMsg, blankMsg, blankMsg, blankMsg]⟩,
    cd_error := 3, cd_nrxwaiters := 0 }

/-- A freshly registered and opened device (`can_register` stores
`cr_msg = NULL` in every RTR slot and zeroes `cd_npendrtr`; `can_open`
zeroes the FIFO indices), with the default table size
`CONFIG_CAN_NPENDINGRTR = 4` and FIFO size 4. -/
def freshDev : CanDev :=
  { cd_rtr := [⟨0, none⟩, ⟨0, none⟩, ⟨0, none⟩, ⟨0, none⟩],
    cd_npendrtr := 0,
    cd_recv := ⟨0, 0, [blankMsg, blankMsg, blankMsg, blankMsg]⟩,
    cd_error := 0, cd_nrxwaiters := 0 }

/-- Concrete full-RX-FIFO device for the C5 witness: capacity 2 ring
with `incw 2 1 = 0 = rx_head`, and one pending RTR slot matching id 5. -/
def c5dev : CanDev :=
  { cd_rtr := [⟨5, some 100⟩], cd_npendrtr := 1,
    cd_recv := ⟨0, 1, [blankMsg, blankMsg]⟩,
    cd_error := 0, cd_nrxwaiters := 0 }

/-- Concrete device for exercising the RTR scan of `can_receive`: two
pending RTR slots, both with non-null targets and both waiting on
id 5; the incoming frame has id 5 and one payload byte. -/
def c2dev : CanDev :=
  { cd_rtr := [⟨5, some 100⟩, ⟨5, some 101⟩, ⟨0, none⟩, ⟨0, none⟩],
    cd_npendrtr := 2,
    cd_recv := ⟨0, 0, [blankMsg, blankMsg, blankMsg, blankMsg]⟩,
    cd_error := 0, cd_nrxwaiters := 0 }

/-- Header of the incoming frame used against `c2dev`: id 5, dlc 1. -/
def c2hdr : CanHdr := ⟨5, 1, 0, 0, 0, 0⟩

/-- Outcome of `can_read`: either the call completes with a return
value, the frames copied to the user buffer (in order) and the new
device state, or the FIFO is empty in blocking mode and the caller
waits on `rx_sem`. -/
inductive ReadOut where
  | done (ret : Int) (frames : List CanMsg) (dev : CanDev)
  | blocks (dev : CanDev)
deriving DecidableEq

/-- The pseudo-frame `can_read` synthesizes when the sticky error byte
`e` is latched (drivers/can.c lines 542-552): id `CAN_ERROR_INTERNAL`,
dlc `CAN_ERROR_DLC`, rtr 0, error 1, extid 0, unused 0, and
`CAN_ERROR_DLC` data bytes zeroed by `memset` before byte 5 receives
`e`. -/
def errorFrame (e : Nat) : CanMsg :=
  ⟨⟨CAN_ERROR_INTERNAL, CAN_ERROR_DLC, 0, 1, 0, 0⟩,
   (List.replicate CAN_ERROR_DLC 0).set 5 e⟩

/-- The drain loop of `can_read` (drivers/can.c lines 595-621): a
do-while that copies the message at `rx_head` whenever it still fits in
the remaining buffer space, advancing `rx_head` with wrap, until the
head catches the tail.  Entered only with a non-empty FIFO.  `fuel` is
`C + 1`, enough for the at most `C - 1` occupied ring slots the head
can traverse before reaching the tail. -/
def readDrain (C hdrlen : Nat) (fd : Bool) (buflen tail : Nat)
    (buf : List CanMsg) : Nat → Nat → Nat → List CanMsg →
    Nat × Nat × List CanMsg
  | 0, nread, head, acc => (nread, head, acc)
  | Nat.succ fuel, nread, head, acc =>
      let msg := buf.getD head blankMsg
      let msglen := canMsgLen hdrlen (can_dlc2bytes fd msg.cm_hdr.ch_dlc)
      if buflen < nread + msglen then (nread, head, acc)
      else
        let head' := incw C head
        if head' = tail then (nread + msglen, head', acc ++ [msg])
        else readDrain C hdrlen fd buflen tail buf fuel
          (nread + msglen) head' (acc ++ [msg])

/-- `can_read` (drivers/can.c lines 504-634).  `errorsEnabled` models
`CONFIG_CAN_ERRORS`, `nonblock` the `O_NONBLOCK` file flag.  A buffer
shorter than `CAN_MSGLEN(0)` returns 0; a latched sticky error either
returns 0 untouched (buffer too small for the error frame) or delivers
the synthesized error frame and clears the latch; otherwise the RX FIFO
is drained into the buffer (blocking first when it is empty). -/
def can_read (C hdrlen : Nat) (fd errorsEnabled nonblock : Bool)
    (buflen : Nat) (dev : CanDev) : ReadOut :=
  if canMsgLen hdrlen 0 ≤ buflen then
    if errorsEnabled ∧ dev.cd_error ≠ 0 then
      if buflen < canMsgLen hdrlen CAN_ERROR_DLC then
        ReadOut.done 0 [] dev
      else
        ReadOut.done (Int.ofNat (canMsgLen hdrlen CAN_ERROR_DLC))
          [errorFrame dev.cd_error] { dev with cd_error := 0 }
    else if dev.cd_recv.rx_head = dev.cd_recv.rx_tail then
      if nonblock then ReadOut.done (-(EAGAIN : Int)) [] dev
      else ReadOut.blocks dev
    else
      let r := readDrain C hdrlen fd buflen dev.cd_recv.rx_tail
        dev.cd_recv.rx_buffer (C + 1) 0 dev.cd_recv.rx_head []
      ReadOut.done (Int.ofNat r.1) r.2.2
        { dev with cd_recv := { dev.cd_recv with rx_head := r.2.1 } }
  else ReadOut.done 0 [] dev

/-- `struct can_txfifo_s`: transmit ring with the three-index scheme.
`tx_tail` is advanced by `can_write`, `tx_queue` by `can_xmit` before
each `dev_send`, `tx_head` by `can_txdone`. -/
structure TxFifo where
  tx_head : Nat
  tx_queue : Nat
  tx_tail : Nat
  tx_buffer : List CanMsg
deriving DecidableEq

/-- The length in bytes of one serialized message as `can_write` and
`can_read` compute it: `CAN_MSGLEN(can_dlc2bytes(ch_dlc))`. -/
def msgLenOf (hdrlen : Nat) (fd : Bool) (msg : CanMsg) : Nat :=
  canMsgLen hdrlen (can_dlc2bytes fd msg.cm_hdr.ch_dlc)

/-- Total serialized length of a sequence of messages. -/
def sumBytes (hdrlen : Nat) (fd : Bool) (msgs : List CanMsg) : Nat :=
  (msgs.map (msgLenOf hdrlen fd)).sum

/-- One enqueue into the TX FIFO (drivers/can.c lines 821-828): copy
the message at `tx_tail` and advance `tx_tail` with wrap. -/
def tx_enq (C : Nat) (msg : CanMsg) (f : TxFifo) : TxFifo :=
  { f with tx_buffer := f.tx_buffer.set f.tx_tail msg,
           tx_tail := incw C f.tx_tail }

/-- The TX FIFO full test of `can_write` (drivers/can.c lines 759-767):
the incremented tail would equal the head. -/
def txIsFull (C : Nat) (f : TxFifo) : Prop :=
  incw C f.tx_tail = f.tx_head

instance (C : Nat) (f : TxFifo) : Decidable (txIsFull C f) :=
  inferInstanceAs (Decidable (incw C f.tx_tail = f.tx_head))

/-- Enqueue a sequence of messages in order. -/
def txEnqAll (C : Nat) (msgs : List CanMsg) (f : TxFifo) : TxFifo :=
  msgs.foldl (fun g m => tx_enq C m g) f

/-- Outcome of `can_write`: either the call returns a value with the
final FIFO state, or the FIFO is full in blocking mode and the caller
waits on `tx_sem` with `nsent` bytes already copied. -/
inductive WriteOut where
  | done (ret : Int) (fifo : TxFifo)
  | blocks (fifo : TxFifo) (nsent : Nat)
deriving DecidableEq

/-- The frame loop of `can_write` (drivers/can.c lines 753-846) over an
already parsed buffer: a sequence of self-delimiting frames (the C loop
guard `buflen - nsent >= CAN_MSGLEN(0)` holds exactly while frames
remain, since every frame is at least `CAN_MSGLEN(0)` bytes and
shorter-than-minimum trailing bytes are ignored).  For each frame the
full test runs first; when full with `O_NONBLOCK` set, the call returns
`-EAGAIN` if nothing was copied and the byte count so far otherwise;
when full in blocking mode the caller waits.  Otherwise the frame is
copied whole at `tx_tail` and the tail advances.  The kick of
`can_xmit` touches only `tx_queue`, which is modelled by the TX
transition system below. -/
def can_write_loop (C hdrlen : Nat) (fd nonblock : Bool) :
    List CanMsg → TxFifo → Nat → WriteOut
  | [], fifo, nsent => WriteOut.done (Int.ofNat nsent) fifo
  | msg :: rest, fifo, nsent =>
      if incw C fifo.tx_tail = fifo.tx_head then
        if nonblock then
          if nsent = 0 then WriteOut.done (-(EAGAIN : Int)) fifo
          else WriteOut.done (Int.ofNat nsent) fifo
        else WriteOut.blocks fifo nsent
      else
        can_write_loop C hdrlen fd nonblock rest (tx_enq C msg fifo)
          (nsent + msgLenOf hdrlen fd msg)

/-- `can_write` (drivers/can.c lines 720-851): run the frame loop with
zero bytes sent so far. -/
def can_write (C hdrlen : Nat) (fd nonblock : Bool) (msgs : List CanMsg)
    (fifo : TxFifo) : WriteOut :=
  can_write_loop C hdrlen fd nonblock msgs fifo 0

/-- A full TX FIFO of capacity 4 (`incw 4 3 = 0 = tx_head`) holding
its C-1 = 3 usable messages. -/
def fullTxFifo : TxFifo :=
  ⟨0, 0, 3, [blankMsg, blankMsg, blankMsg, blankMsg]⟩

/-- One successful iteration of the enqueue part of `can_write`
(drivers/can.c lines 759-767 and 821-828): guarded by the full test,
it copies the message at `tx_tail` and advances `tx_tail`.  It never
touches `tx_head` or `tx_queue`. -/
def tx_enqueue_step (C : Nat) (msg : CanMsg) (f : TxFifo) : Option TxFifo :=
  if incw C f.tx_tail = f.tx_head then none else some (tx_enq C msg f)

/-- One iteration of the hand-off loop of `can_xmit` (drivers/can.c
lines 684-707): guarded by `tx_queue != tx_tail` (and by
`dev_txready`, which the environment decides), it advances `tx_queue`
with wrap *before* `dev_send` is called on the message at the old
queue index.  It never touches `tx_head` or `tx_tail`. -/
def can_xmit_step (C : Nat) (f : TxFifo) : Option TxFifo :=
  if f.tx_queue = f.tx_tail then none
  else some { f with tx_queue := incw C f.tx_queue }

/-- The head advance of `can_txdone` (drivers/can.c lines 1211-1226):
guarded by the FIFO being non-empty (`tx_head != tx_tail`), it advances
only `tx_head` with wrap.  The subsequent `can_xmit` call inside
`can_txdone` is a separate sequence of `can_xmit_step` events. -/
def can_txdone_step (C : Nat) (f : TxFifo) : Option TxFifo :=
  if f.tx_head = f.tx_tail then none
  else some { f with tx_head := incw C f.tx_head }

/-- The TX engine state: the FIFO of the driver, plus two ghost
counters describing the environment.  `inflight` counts the messages
handed to `dev_send` whose completion `can_txdone` has not yet
reported; `count` counts the messages enqueued by `can_write` and not
yet completed.  They track the hardware and are not stored by the C
code. -/
structure TxSys where
  fifo : TxFifo
  inflight : Nat
  count : Nat
deriving DecidableEq

/-- The events of the TX engine, interleaved in any order the driver
and its callers allow.  `enqueue` is a `can_write` iteration, `send` a
`can_xmit` loop iteration (each `dev_send` puts one more message in
flight), and `done` a `can_txdone` call.  The lower-half contract is
that `can_txdone` reports the completion of an earlier `dev_send`, so a
`done` event requires a message in flight; `dev_send` synchronously
invoking `can_txdone` is the trace where a `done` event immediately
follows its `send`. -/
inductive TxStep (C : Nat) : TxSys → TxSys → Prop
  | enqueue (s : TxSys) (msg : CanMsg) (f' : TxFifo)
      (h : tx_enqueue_step C msg s.fifo = some f') :
      TxStep C s ⟨f', s.inflight, s.count + 1⟩
  | send (s : TxSys) (f' : TxFifo)
      (h : can_xmit_step C s.fifo = some f') :
      TxStep C s ⟨f', s.inflight + 1, s.count⟩
  | done (s : TxSys) (f' : TxFifo)
      (hin : 0 < s.inflight)
      (h : can_txdone_step C s.fifo = some f') :
      TxStep C s ⟨f', s.inflight - 1, s.count - 1⟩

/-- The state after `can_open` marked the FIFOs empty
(drivers/can.c lines 387-389): all three indices zero, nothing in
flight, nothing pending; `buf` is the preallocated `tx_buffer`
contents. -/
def txInit (buf : List CanMsg) : TxSys := ⟨⟨0, 0, 0, buf⟩, 0, 0⟩

/-- Cyclic distance from `h` to `x` on a ring of capacity `C` (for
`h, x < C` this is the unique `d < C` with `x = (h + d) mod C`); the
claim's ordering `head ≤ queue ≤ tail` modulo C reads
`cdist head queue ≤ cdist head tail`. -/
def cdist (C h x : Nat) : Nat := if h ≤ x then x - h else x + C - h

/-- Inductive invariant of the TX engine: the indices stay in range,
`inflight` is the cyclic head-to-queue distance, `count` the cyclic
head-to-tail distance, and the first never exceeds the second. -/
def TxInv (C : Nat) (s : TxSys) : Prop :=
  s.fifo.tx_head < C ∧ s.fifo.tx_queue < C ∧ s.fifo.tx_tail < C ∧
  s.inflight = cdist C s.fifo.tx_head s.fifo.tx_queue ∧
  s.count = cdist C s.fifo.tx_head s.fifo.tx_tail ∧
  s.inflight ≤ s.count

/-- Message used by the concrete TX engine trace. -/
def wmsg : CanMsg := ⟨⟨1, 2, 0, 0, 0, 0⟩, [10, 20]⟩

/-- The TX engine state after one enqueue, one hand-off and one
completion on a capacity-4 FIFO: all indices at 1, nothing in flight,
nothing pending. -/
def traceEnd : TxSys := ⟨⟨1, 1, 1, [wmsg]⟩, 0, 0⟩

end CanDriver

namespace CanDriver

/-- C8: `can_dlc2bytes` returns `dlc` itself for every `dlc ≤ 8` in both
configurations; for `dlc` in `[9,15]` it returns 8 when CAN-FD is not
compiled in, and the CAN-FD table value
{9 to 12, 10 to 16, 11 to 20, 12 to 24, 13 to 32, 14 to 48, 15 to 64}
when CAN-FD is compiled in. -/
theorem can_dlc2bytes_table :
    (∀ d : Fin 9, can_dlc2bytes true d.val = d.val ∧
      can_dlc2bytes false d.val = d.val) ∧
    (∀ d : Fin 16, 9 ≤ d.val → can_dlc2bytes false d.val = 8) ∧
    can_dlc2bytes true 9 = 12 ∧ can_dlc2bytes true 10 = 16 ∧
    can_dlc2bytes true 11 = 20 ∧ can_dlc2bytes true 12 = 24 ∧
    can_dlc2bytes true 13 = 32 ∧ can_dlc2bytes true 14 = 48 ∧
    can_dlc2bytes true 15 = 64 := by decide

/-- C9: in the CAN-FD configuration, for every byte count `n` in
`[0, 64]` (in particular for every `n` that is a value of the CAN-FD
table) `can_dlc2bytes (can_bytes2dlc n)` is at least `n`, and for every
`dlc` in `[0, 15]` the round trip `can_bytes2dlc (can_dlc2bytes dlc)`
returns `dlc` itself. -/
theorem dlc_roundtrip :
    (∀ n : Fin 65, n.val ≤ can_dlc2bytes true (can_bytes2dlc true n.val)) ∧
    (∀ d : Fin 16, can_bytes2dlc true (can_dlc2bytes true d.val) = d.val) := by
  decide

/-- Latching a bit into the sticky error byte leaves it non-zero. -/
lemma or_rxoverflow_ne_zero (n : Nat) : n ||| CAN_ERROR5_RXOVERFLOW ≠ 0 := by
  intro h
  have h0 := congrArg (fun m => m.testBit 0) h
  simp [CAN_ERROR5_RXOVERFLOW, Nat.testBit_or] at h0

/-- C5: when `can_receive` is called with the RX FIFO full (the
incremented tail equals the head), the frame is not added (head, tail
and buffer unchanged), the sticky RX-overflow bit is latched (errors
compiled in, leaving the latch non-zero), `-ENOMEM` is returned, and
the RTR-matching scan is still performed on the frame exactly as in the
non-full case. -/
theorem can_receive_on_full_fifo (C : Nat) (fd : Bool) (hdr : CanHdr)
    (data : List Nat) (dev : CanDev)
    (hfull : incw C dev.cd_recv.rx_tail = dev.cd_recv.rx_head) :
    (can_receive C fd true hdr data dev).ret = -(ENOMEM : Int) ∧
    (can_receive C fd true hdr data dev).dev.cd_recv = dev.cd_recv ∧
    (can_receive C fd true hdr data dev).dev.cd_error
      = dev.cd_error ||| CAN_ERROR5_RXOVERFLOW ∧
    (can_receive C fd true hdr data dev).dev.cd_error ≠ 0 ∧
    ((can_receive C fd true hdr data dev).dev.cd_rtr,
      (can_receive C fd true hdr data dev).dev.cd_npendrtr,
      (can_receive C fd true hdr data dev).rtrDelivered,
      (can_receive C fd true hdr data dev).rtrPosted)
      = if 0 < dev.cd_npendrtr then
          ((rtrScan fd hdr data dev.cd_rtr dev.cd_npendrtr).slots,
           (rtrScan fd hdr data dev.cd_rtr dev.cd_npendrtr).npend,
           (rtrScan fd hdr data dev.cd_rtr dev.cd_npendrtr).delivered,
           (rtrScan fd hdr data dev.cd_rtr dev.cd_npendrtr).posted)
        else (dev.cd_rtr, dev.cd_npendrtr, [], []) := by
  unfold can_receive
  rw [hfull]
  refine ⟨by simp, by simp, by simp, by simp [or_rxoverflow_ne_zero], ?_⟩
  by_cases hp : 0 < dev.cd_npendrtr <;> simp [hp]

/-- Witness for C5 at a concrete full FIFO and a matching RTR slot. -/
theorem can_receive_on_full_fifo_witness :
    (can_receive 2 false true ⟨5, 1, 0, 0, 0, 0⟩ [170] c5dev).ret
      = -(ENOMEM : Int) ∧
    (can_receive 2 false true ⟨5, 1, 0, 0, 0, 0⟩ [170] c5dev).dev.cd_recv
      = c5dev.cd_recv ∧
    (can_receive 2 false true ⟨5, 1, 0, 0, 0, 0⟩ [170] c5dev).dev.cd_error
      = c5dev.cd_error ||| CAN_ERROR5_RXOVERFLOW ∧
    (can_receive 2 false true ⟨5, 1, 0, 0, 0, 0⟩ [170] c5dev).dev.cd_error ≠ 0 ∧
    ((can_receive 2 false true ⟨5, 1, 0, 0, 0, 0⟩ [170] c5dev).dev.cd_rtr,
      (can_receive 2 false true ⟨5, 1, 0, 0, 0, 0⟩ [170] c5dev).dev.cd_npendrtr,
      (can_receive 2 false true ⟨5, 1, 0, 0, 0, 0⟩ [170] c5dev).rtrDelivered,
      (can_receive 2 false true ⟨5, 1, 0, 0, 0, 0⟩ [170] c5dev).rtrPosted)
      = if 0 < c5dev.cd_npendrtr then
          ((rtrScan false ⟨5, 1, 0, 0, 0, 0⟩ [170] c5dev.cd_rtr c5dev.cd_npendrtr).slots,
           (rtrScan false ⟨5, 1, 0, 0, 0, 0⟩ [170] c5dev.cd_rtr c5dev.cd_npendrtr).npend,
           (rtrScan false ⟨5, 1, 0, 0, 0, 0⟩ [170] c5dev.cd_rtr c5dev.cd_npendrtr).delivered,
           (rtrScan false ⟨5, 1, 0, 0, 0, 0⟩ [170] c5dev.cd_rtr c5dev.cd_npendrtr).posted)
        else (c5dev.cd_rtr, c5dev.cd_npendrtr, [], []) :=
  can_receive_on_full_fifo 2 false ⟨5, 1, 0, 0, 0, 0⟩ [170] c5dev (by decide)

/-- C2: evaluation of `can_receive` at a frame with id 5 and dlc 1
against a table in which slots 0 and 1 both hold non-null targets with
stored id 5.  Only slot 0 is satisfied: its delivery and semaphore post
happen and `cd_npendrtr` drops by one, but slot 1 keeps its non-null
target and is never delivered or posted, because the payload-copy loop
clobbers the scan index (the scan resumes at index `nbytes + 1 = 2`).
This contradicts the claim that every matching slot is satisfied by the
one frame. -/
theorem can_receive_skips_matching_slot :
    c2dev.cd_rtr.get? 1 = some ⟨5, some 101⟩ ∧
    c2hdr.ch_id = 5 ∧ 0 < c2dev.cd_npendrtr ∧
    (can_receive 4 false true c2hdr [170] c2dev).dev.cd_rtr.get? 1
      = some ⟨5, some 101⟩ ∧
    (can_receive 4 false true c2hdr [170] c2dev).rtrDelivered.map
      RtrDelivery.slot = [0] ∧
    (can_receive 4 false true c2hdr [170] c2dev).rtrPosted = [0] ∧
    (can_receive 4 false true c2hdr [170] c2dev).dev.cd_npendrtr = 1 := by
  decide

/-- C3: evaluation of `can_rtrread` on a freshly opened device, whose
four RTR slots are all free (target pointers all null), for the normal
request `{ci_id = 291, ci_msg = a valid buffer}`.  The claim says a
free slot must be selected and `remoterequest` issued; the code instead
returns `-ENOMEM` and leaves the device untouched, because the
availability test reads `!rtr->ci_msg` (the request's pointer, which is
non-null here) instead of the slot's `cr_msg`. -/
theorem can_rtrread_rejects_despite_free_slots :
    (∀ s ∈ freshDev.cd_rtr, s.cr_msg = none) ∧
    can_rtrread ⟨291, some 100⟩ freshDev = (freshDev, RtrOutcome.nomem) := by
  decide

/-- C4: evaluation of `can_rtrread` on a freshly opened device for a
request whose buffer pointer is null.  The buggy availability test
`!rtr->ci_msg` now succeeds, so slot 0 is taken and `cd_npendrtr` is
incremented to 1 — but the pointer stored into the slot is the
request's null `ci_msg`, so the table still has zero slots with a
non-null target: `cd_npendrtr` no longer equals the number of non-null
target pointers, contradicting the claimed invariant. -/
theorem can_rtrread_desyncs_npendrtr :
    (can_rtrread ⟨7, none⟩ freshDev).1.cd_npendrtr = 1 ∧
    countOccupied (can_rtrread ⟨7, none⟩ freshDev).1.cd_rtr = 0 ∧
    (can_rtrread ⟨7, none⟩ freshDev).2 = RtrOutcome.requested 7 0 := by
  decide

/-- C6: when the sticky error latch is non-zero (errors compiled in)
and the buffer is large enough, `can_read` delivers exactly one
synthesized pseudo-frame — id `CAN_ERROR_INTERNAL`, dlc
`CAN_ERROR_DLC`, error flag 1, rtr flag 0, data zeroed except byte 5
which carries the latched byte — clears the latch, returns
`CAN_MSGLEN(CAN_ERROR_DLC)`, and consumes nothing from the RX FIFO. -/
theorem can_read_synthesizes_error_frame (C hdrlen : Nat)
    (fd nonblock : Bool) (buflen : Nat) (dev : CanDev)
    (herr : dev.cd_error ≠ 0)
    (hbuf : canMsgLen hdrlen CAN_ERROR_DLC ≤ buflen) :
    can_read C hdrlen fd true nonblock buflen dev =
      ReadOut.done (Int.ofNat (canMsgLen hdrlen CAN_ERROR_DLC))
        [errorFrame dev.cd_error] { dev with cd_error := 0 } ∧
    (errorFrame dev.cd_error).cm_hdr.ch_id = CAN_ERROR_INTERNAL ∧
    (errorFrame dev.cd_error).cm_hdr.ch_dlc = CAN_ERROR_DLC ∧
    (errorFrame dev.cd_error).cm_hdr.ch_error = 1 ∧
    (errorFrame dev.cd_error).cm_hdr.ch_rtr = 0 ∧
    (errorFrame dev.cd_error).cm_data.get? 5 = some dev.cd_error ∧
    (∀ j : Nat, j < CAN_ERROR_DLC → j ≠ 5 →
      (errorFrame dev.cd_error).cm_data.get? j = some 0) ∧
    ({ dev with cd_error := 0 } : CanDev).cd_recv = dev.cd_recv := by
  have h0 : canMsgLen hdrlen 0 ≤ buflen :=
    le_trans (by simp [canMsgLen]) hbuf
  refine ⟨?_, rfl, rfl, rfl, rfl, rfl, ?_, rfl⟩
  · unfold can_read
    rw [if_pos h0, if_pos ⟨rfl, herr⟩, if_neg (not_lt.mpr hbuf)]
  · intro j hj hne
    unfold CAN_ERROR_DLC at hj
    interval_cases j
    all_goals first
      | rfl
      | exact absurd rfl hne

/-- Witness for C6 at a concrete device with latch 3, header length 2
and a 10-byte buffer. -/
theorem can_read_synthesizes_error_frame_witness :
    can_read 4 2 false true false 10 latchedDev =
      ReadOut.done (Int.ofNat (canMsgLen 2 CAN_ERROR_DLC))
        [errorFrame latchedDev.cd_error] { latchedDev with cd_error := 0 } ∧
    (errorFrame latchedDev.cd_error).cm_hdr.ch_id = CAN_ERROR_INTERNAL ∧
    (errorFrame latchedDev.cd_error).cm_hdr.ch_dlc = CAN_ERROR_DLC ∧
    (errorFrame latchedDev.cd_error).cm_hdr.ch_error = 1 ∧
    (errorFrame latchedDev.cd_error).cm_hdr.ch_rtr = 0 ∧
    (errorFrame latchedDev.cd_error).cm_data.get? 5
      = some latchedDev.cd_error ∧
    (∀ j : Nat, j < CAN_ERROR_DLC → j ≠ 5 →
      (errorFrame latchedDev.cd_error).cm_data.get? j = some 0) ∧
    ({ latchedDev with cd_error := 0 } : CanDev).cd_recv
      = latchedDev.cd_recv :=
  can_read_synthesizes_error_frame 4 2 false false 10 latchedDev
    (by decide) (by decide)

/-- C10 (implicit): with the sticky error latch non-zero and a buffer
that admits the smallest message but not the error frame
(`CAN_MSGLEN(0) ≤ buflen < CAN_MSGLEN(CAN_ERROR_DLC)`), `can_read`
returns 0, copies no frame, and leaves the whole device — the latch and
the RX FIFO indices included — unchanged. -/
theorem can_read_small_buffer_keeps_latch (C hdrlen : Nat)
    (fd nonblock : Bool) (buflen : Nat) (dev : CanDev)
    (herr : dev.cd_error ≠ 0)
    (hlo : canMsgLen hdrlen 0 ≤ buflen)
    (hhi : buflen < canMsgLen hdrlen CAN_ERROR_DLC) :
    can_read C hdrlen fd true nonblock buflen dev = ReadOut.done 0 [] dev := by
  unfold can_read
  rw [if_pos hlo, if_pos ⟨rfl, herr⟩, if_pos hhi]

/-- Witness for C10 at a concrete device with latch 3, header length 2
and a 5-byte buffer (between `CAN_MSGLEN 0 = 2` and
`CAN_MSGLEN CAN_ERROR_DLC = 10`). -/
theorem can_read_small_buffer_keeps_latch_witness :
    can_read 4 2 false true false 5 latchedDev = ReadOut.done 0 [] latchedDev :=
  can_read_small_buffer_keeps_latch 4 2 false false 5 latchedDev
    (by decide) (by decide) (by decide)

/-- Every nonempty frame sequence has positive serialized length (each
frame carries at least the header). -/
lemma sumBytes_pos (hdrlen : Nat) (fd : Bool) (hh : 0 < hdrlen)
    (msgs : List CanMsg) (hne : msgs ≠ []) : 0 < sumBytes hdrlen fd msgs := by
  cases msgs with
  | nil => exact absurd rfl hne
  | cons m rest =>
    simp only [sumBytes, List.map_cons, List.sum_cons, msgLenOf, canMsgLen]
    omega

/-- The write loop, on encountering a full FIFO after `k` whole frames,
returns `-EAGAIN` when the running byte count is zero and the byte
count otherwise, with exactly those `k` frames enqueued. -/
lemma can_write_loop_stops_at_full (C hdrlen : Nat) (fd : Bool) :
    ∀ (msgs : List CanMsg) (fifo : TxFifo) (nsent k : Nat),
      k < msgs.length →
      txIsFull C (txEnqAll C (msgs.take k) fifo) →
      (∀ j, j < k → ¬ txIsFull C (txEnqAll C (msgs.take j) fifo)) →
      can_write_loop C hdrlen fd true msgs fifo nsent =
        WriteOut.done
          (if nsent + sumBytes hdrlen fd (msgs.take k) = 0
           then -(EAGAIN : Int)
           else Int.ofNat (nsent + sumBytes hdrlen fd (msgs.take k)))
          (txEnqAll C (msgs.take k) fifo) := by
  intro msgs
  induction msgs with
  | nil => intro fifo nsent k hk _ _; exact absurd hk (by simp)
  | cons m rest ih =>
    intro fifo nsent k hk hfull hnf
    cases k with
    | zero =>
      have h : incw C fifo.tx_tail = fifo.tx_head := hfull
      simp only [can_write_loop, if_pos h, List.take_zero, sumBytes,
        List.map_nil, List.sum_nil, Nat.add_zero, txEnqAll, List.foldl_nil]
      by_cases hn : nsent = 0 <;> simp [hn]
    | succ j =>
      have hnotfull : ¬ (incw C fifo.tx_tail = fifo.tx_head) := by
        have h0 := hnf 0 (Nat.succ_pos j)
        simpa [txIsFull, txEnqAll] using h0
      have hk' : j < rest.length := by simpa using hk
      have hfull' : txIsFull C (txEnqAll C (rest.take j) (tx_enq C m fifo)) := by
        simpa [txEnqAll, List.take_succ_cons] using hfull
      have hnf' : ∀ i, i < j →
          ¬ txIsFull C (txEnqAll C (rest.take i) (tx_enq C m fifo)) := by
        intro i hi
        have h1 := hnf (i + 1) (by omega)
        simpa [txEnqAll, List.take_succ_cons] using h1
      have hrec := ih (tx_enq C m fifo) (nsent + msgLenOf hdrlen fd m) j
        hk' hfull' hnf'
      simp only [can_write_loop, if_neg hnotfull, hrec]
      simp [sumBytes, txEnqAll, List.take_succ_cons, Nat.add_assoc]

/-- C7: when `can_write` in non-blocking mode finds the TX FIFO full
after `k` whole frames (`k < msgs.length`, full now, not full before),
it returns `-EAGAIN` if no frame has been copied yet and otherwise the
byte count of the frames already copied — a whole number of frames —
and in either case exactly those `k` whole frames are enqueued, never a
partial one. -/
theorem can_write_nonblock_on_full (C hdrlen : Nat) (fd : Bool)
    (msgs : List CanMsg) (fifo : TxFifo) (k : Nat)
    (hh : 0 < hdrlen) (hk : k < msgs.length)
    (hfull : txIsFull C (txEnqAll C (msgs.take k) fifo))
    (hnf : ∀ j, j < k → ¬ txIsFull C (txEnqAll C (msgs.take j) fifo)) :
    can_write C hdrlen fd true msgs fifo =
      WriteOut.done
        (if k = 0 then -(EAGAIN : Int)
         else Int.ofNat (sumBytes hdrlen fd (msgs.take k)))
        (txEnqAll C (msgs.take k) fifo) := by
  have h := can_write_loop_stops_at_full C hdrlen fd msgs fifo 0 k hk hfull hnf
  unfold can_write
  rw [h]
  by_cases hk0 : k = 0
  · simp [hk0, sumBytes]
  · have hne : msgs.take k ≠ [] := by
      intro habs
      have hlen := congrArg List.length habs
      simp only [List.length_take, List.length_nil] at hlen
      omega
    have hpos := sumBytes_pos hdrlen fd hh (msgs.take k) hne
    simp only [Nat.zero_add, if_neg hk0]
    rw [if_neg (by omega)]

/-- Witness for C7: a full capacity-4 FIFO rejects a one-frame
non-blocking write with `-EAGAIN` (the `k = 0` case). -/
theorem can_write_nonblock_on_full_witness :
    can_write 4 2 false true [blankMsg] fullTxFifo =
      WriteOut.done
        (if 0 = 0 then -(EAGAIN : Int)
         else Int.ofNat (sumBytes 2 false ([blankMsg].take 0)))
        (txEnqAll 4 ([blankMsg].take 0) fullTxFifo) :=
  can_write_nonblock_on_full 4 2 false [blankMsg] fullTxFifo 0
    (by decide) (by decide) (by decide)
    (fun j hj => absurd hj (Nat.not_lt_zero j))

/-- The wrap-around increment stays below the capacity. -/
lemma incw_lt (C x : Nat) (hC : 0 < C) : incw C x < C := by
  unfold incw; split <;> omega

/-- The cyclic distance stays below the capacity. -/
lemma cdist_lt (C h x : Nat) (hh : h < C) (hx : x < C) : cdist C h x < C := by
  unfold cdist; split <;> omega

/-- The cyclic distance vanishes exactly at coincidence. -/
lemma cdist_eq_zero_iff (C h x : Nat) (hh : h < C) (hx : x < C) :
    cdist C h x = 0 ↔ h = x := by
  unfold cdist; split <;> omega

/-- Two in-range indices at the same cyclic distance from `h`
coincide. -/
lemma cdist_inj (C h x y : Nat) (hh : h < C) (hx : x < C) (hy : y < C)
    (heq : cdist C h x = cdist C h y) : x = y := by
  unfold cdist at heq; split at heq <;> split at heq <;> omega

/-- Advancing the far index with wrap increments the cyclic distance,
as long as the distance stays in range. -/
lemma cdist_incw (C h x : Nat) (hh : h < C) (hx : x < C)
    (hlt : cdist C h x + 1 < C) :
    cdist C h (incw C x) = cdist C h x + 1 := by
  unfold cdist at hlt
  unfold cdist incw
  split_ifs at hlt ⊢ <;> omega

/-- Advancing the base index with wrap decrements a positive cyclic
distance. -/
lemma cdist_incw_head (C h x : Nat) (hh : h < C) (hx : x < C)
    (hpos : 0 < cdist C h x) :
    cdist C (incw C h) x = cdist C h x - 1 := by
  unfold cdist at hpos
  unfold cdist incw
  split_ifs at hpos ⊢ <;> omega

/-- The full test characterizes the maximal cyclic distance. -/
lemma incw_eq_iff_cdist (C h x : Nat) (hh : h < C) (hx : x < C) :
    incw C x = h ↔ cdist C h x = C - 1 := by
  unfold cdist incw
  split_ifs <;> omega

/-- The initial TX engine state satisfies the invariant. -/
lemma txInv_init (C : Nat) (buf : List CanMsg) (hC : 0 < C) :
    TxInv C (txInit buf) :=
  ⟨hC, hC, hC, rfl, rfl, Nat.le_refl 0⟩

/-- Every TX engine event preserves the invariant. -/
lemma txInv_step (C : Nat) (s t : TxSys) (hC : 0 < C)
    (hinv : TxInv C s) (hstep : TxStep C s t) : TxInv C t := by
  obtain ⟨hh, hq, ht, hifl, hcnt, hle⟩ := hinv
  cases hstep with
  | enqueue msg f' h =>
      unfold tx_enqueue_step at h
      split at h
      · exact absurd h (by simp)
      · rename_i hc
        injection h with h
        subst h
        have hfull := (not_iff_not.mpr
          (incw_eq_iff_cdist C s.fifo.tx_head s.fifo.tx_tail hh ht)).mp hc
        have hlt := cdist_lt C s.fifo.tx_head s.fifo.tx_tail hh ht
        refine ⟨hh, hq, incw_lt C s.fifo.tx_tail hC, hifl, ?_, ?_⟩
        · show s.count + 1 = cdist C s.fifo.tx_head (incw C s.fifo.tx_tail)
          rw [cdist_incw C s.fifo.tx_head s.fifo.tx_tail hh ht (by omega),
            hcnt]
        · show s.inflight ≤ s.count + 1
          omega
  | send f' h =>
      unfold can_xmit_step at h
      split at h
      · exact absurd h (by simp)
      · rename_i hc
        injection h with h
        subst h
        have hne : cdist C s.fifo.tx_head s.fifo.tx_queue
            ≠ cdist C s.fifo.tx_head s.fifo.tx_tail :=
          fun heq => hc (cdist_inj C s.fifo.tx_head _ _ hh hq ht heq)
        have hlt := cdist_lt C s.fifo.tx_head s.fifo.tx_tail hh ht
        refine ⟨hh, incw_lt C s.fifo.tx_queue hC, ht, ?_, hcnt, ?_⟩
        · show s.inflight + 1
            = cdist C s.fifo.tx_head (incw C s.fifo.tx_queue)
          rw [cdist_incw C s.fifo.tx_head s.fifo.tx_queue hh hq (by omega),
            hifl]
        · show s.inflight + 1 ≤ s.count
          omega
  | done f' hin h =>
      unfold can_txdone_step at h
      split at h
      · exact absurd h (by simp)
      · injection h with h
        subst h
        have hqpos : 0 < cdist C s.fifo.tx_head s.fifo.tx_queue := hifl ▸ hin
        have htpos : 0 < cdist C s.fifo.tx_head s.fifo.tx_tail := by omega
        refine ⟨incw_lt C s.fifo.tx_head hC, hq, ht, ?_, ?_, ?_⟩
        · show s.inflight - 1
            = cdist C (incw C s.fifo.tx_head) s.fifo.tx_queue
          rw [cdist_incw_head C s.fifo.tx_head s.fifo.tx_queue hh hq hqpos,
            hifl]
        · show s.count - 1 = cdist C (incw C s.fifo.tx_head) s.fifo.tx_tail
          rw [cdist_incw_head C s.fifo.tx_head s.fifo.tx_tail hh ht htpos,
            hcnt]
        · show s.inflight - 1 ≤ s.count - 1
          omega

/-- The invariant holds in every state the TX engine can reach from the
freshly opened FIFO. -/
lemma txInv_reachable (C : Nat) (buf : List CanMsg) (s : TxSys) (hC : 0 < C)
    (h : Relation.ReflTransGen (TxStep C) (txInit buf) s) : TxInv C s := by
  induction h with
  | refl => exact txInv_init C buf hC
  | tail _ hbc ih => exact txInv_step C _ _ hC ih hbc

/-- C1: in every reachable state of the TX engine, the three indices
are cyclically ordered `head ≤ queue ≤ tail` (non-strict, modulo the
capacity C), `head = tail` holds exactly when the FIFO is empty (no
enqueued message is uncompleted), and whenever a `can_txdone` call is
possible (a send is in flight — in particular when `dev_send`
synchronously invokes it, since `can_xmit` advanced `tx_queue` before
calling `dev_send`), the head has not caught the queue and the head
advance of `can_txdone` goes through. -/
theorem tx_fifo_cyclic_ordering (C : Nat) (buf : List CanMsg) (s : TxSys)
    (hC : 0 < C)
    (hreach : Relation.ReflTransGen (TxStep C) (txInit buf) s) :
    cdist C s.fifo.tx_head s.fifo.tx_queue
      ≤ cdist C s.fifo.tx_head s.fifo.tx_tail ∧
    (s.fifo.tx_head = s.fifo.tx_tail ↔ s.count = 0) ∧
    (0 < s.inflight →
      s.fifo.tx_head ≠ s.fifo.tx_queue ∧
      can_txdone_step C s.fifo ≠ none) := by
  obtain ⟨hh, hq, ht, hifl, hcnt, hle⟩ := txInv_reachable C buf s hC hreach
  refine ⟨?_, ?_, ?_⟩
  · rw [← hifl, ← hcnt]; exact hle
  · rw [hcnt]
    exact (cdist_eq_zero_iff C s.fifo.tx_head s.fifo.tx_tail hh ht).symm
  · intro hin
    have hqpos : 0 < cdist C s.fifo.tx_head s.fifo.tx_queue := hifl ▸ hin
    have htpos : 0 < cdist C s.fifo.tx_head s.fifo.tx_tail := by omega
    constructor
    · exact fun heq => absurd
        ((cdist_eq_zero_iff C s.fifo.tx_head s.fifo.tx_queue hh hq).mpr heq)
        (by omega)
    · have hne : s.fifo.tx_head ≠ s.fifo.tx_tail := fun heq => absurd
        ((cdist_eq_zero_iff C s.fifo.tx_head s.fifo.tx_tail hh ht).mpr heq)
        (by omega)
      unfold can_txdone_step
      rw [if_neg hne]
      simp

/-- Witness for C1 at the end of a concrete three-event trace on a
capacity-4 FIFO: enqueue `wmsg`, hand it to the hardware, complete
it. -/
theorem tx_fifo_cyclic_ordering_witness :
    cdist 4 traceEnd.fifo.tx_head traceEnd.fifo.tx_queue
      ≤ cdist 4 traceEnd.fifo.tx_head traceEnd.fifo.tx_tail ∧
    (traceEnd.fifo.tx_head = traceEnd.fifo.tx_tail ↔ traceEnd.count = 0) ∧
    (0 < traceEnd.inflight →
      traceEnd.fifo.tx_head ≠ traceEnd.fifo.tx_queue ∧
      can_txdone_step 4 traceEnd.fifo ≠ none) := by
  have r1 : TxStep 4 (txInit [blankMsg]) ⟨⟨0, 0, 1, [wmsg]⟩, 0, 1⟩ :=
    TxStep.enqueue (txInit [blankMsg]) wmsg ⟨0, 0, 1, [wmsg]⟩ (by decide)
  have r2 : TxStep 4 ⟨⟨0, 0, 1, [wmsg]⟩, 0, 1⟩ ⟨⟨0, 1, 1, [wmsg]⟩, 1, 1⟩ :=
    TxStep.send ⟨⟨0, 0, 1, [wmsg]⟩, 0, 1⟩ ⟨0, 1, 1, [wmsg]⟩ (by decide)
  have r3 : TxStep 4 ⟨⟨0, 1, 1, [wmsg]⟩, 1, 1⟩ traceEnd :=
    TxStep.done ⟨⟨0, 1, 1, [wmsg]⟩, 1, 1⟩ ⟨1, 1, 1, [wmsg]⟩ (by decide)
      (by decide)
  exact tx_fifo_cyclic_ordering 4 [blankMsg] traceEnd (by decide)
    (Relation.ReflTransGen.tail
      (Relation.ReflTransGen.tail (Relation.ReflTransGen.single r1) r2) r3)

end CanDriver
